import Mathlib

/-!
Verification development for the `differ` churn-reporting pipeline.

The Go sources are embedded shallowly: pure functions become Lean
functions over `String` / `List`, the streaming diff parser becomes a
fold over the list of input lines, and the `run` pipeline fragment that
resolves refs and aggregates records becomes explicit state passing.
External collaborators (the git process, glob-matching libraries) are
modelled as function parameters, exactly as the code consumes them
through interfaces.  All strings relevant to the claims are ASCII, so
Go's Unicode-aware `strings.ToLower` / `strings.TrimSpace` are embedded
by their ASCII behaviour.
-/

namespace Differ

/-! ## String helpers (embedding of the Go `strings` operations used) -/

/-- `strings.HasPrefix s pre`. -/
def hasPrefixS (s pre : String) : Bool := pre.data.isPrefixOf s.data

/-- `strings.HasSuffix s suf`. -/
def hasSuffixS (s suf : String) : Bool := suf.data.isSuffixOf s.data

/-- `strings.TrimPrefix s pre`: drops `pre` when it is a prefix, else returns `s`. -/
def trimPrefixS (s pre : String) : String :=
  if hasPrefixS s pre then String.mk (s.data.drop pre.data.length) else s

/-- `strings.TrimSuffix s suf`. -/
def trimSuffixS (s suf : String) : String :=
  if hasSuffixS s suf then String.mk (s.data.take (s.data.length - suf.data.length)) else s

/-- `sub` occurs (contiguously) somewhere in `l`. -/
def containsAux : List Char → List Char → Bool
  | [], sub => sub.isEmpty
  | l@(_ :: t), sub => sub.isPrefixOf l || containsAux t sub

/-- `strings.Contains s sub`. -/
def containsS (s sub : String) : Bool := containsAux s.data sub.data

/-- `strings.ContainsAny s chars`. -/
def containsAnyS (s chars : String) : Bool := s.data.any (fun c => chars.data.contains c)

/-- The ASCII white-space characters recognised by `unicode.IsSpace`
(`strings.TrimSpace` strips exactly these on ASCII input). -/
def goSpace (c : Char) : Bool :=
  c == ' ' || c == '\t' || c == '\n' || c == '\x0b' || c == '\x0c' || c == '\r'

/-- `strings.TrimSpace s == ""`: every character is white space. -/
def isBlank (s : String) : Bool := s.data.all goSpace

/-- Index of the first occurrence of `sep` in `l`, if any
(the search behind `strings.Index` / `strings.SplitN`). -/
def firstIdx (l sep : List Char) : Option Nat :=
  match l with
  | [] => if sep.isPrefixOf ([] : List Char) then some 0 else none
  | _ :: t => if sep.isPrefixOf l then some 0 else (firstIdx t sep).map (· + 1)

/-- `strings.SplitN s sep 2` for non-empty `sep`: `some (before, after)` when
`sep` occurs in `s` (the Go call returns two parts), `none` otherwise
(the Go call returns the single part `s`). -/
def splitFirst (s sep : String) : Option (String × String) :=
  match firstIdx s.data sep.data with
  | some i => some (String.mk (s.data.take i), String.mk (s.data.drop (i + sep.data.length)))
  | none => none

/-- ASCII `strings.ToLower` (all claim-relevant strings are ASCII). -/
def asciiLower (s : String) : String := String.mk (s.data.map Char.toLower)

/-! ## `path/filepath` helpers (target platform separator is `/`) -/

/-- `filepath.ToSlash`: the identity on the target platform, whose
separator is already `/`. -/
def toSlash (p : String) : String := p

/-- `filepath.Base`: last element of the path after trimming trailing
slashes; `"."` for the empty path, `"/"` when the path is all slashes. -/
def pathBase (p : String) : String :=
  if p = "" then "."
  else
    let l := (p.data.reverse.dropWhile (· == '/')).reverse
    let last := (l.reverse.takeWhile (· != '/')).reverse
    if last = [] then "/" else String.mk last

/-- Scan the reversed path for the final dot of its last element
(the loop inside `filepath.Ext`); `acc` holds the characters already
passed, in original order. -/
def pathExtAux : List Char → List Char → String
  | [], _ => ""
  | c :: rest, acc =>
    if c = '/' then ""
    else if c = '.' then String.mk ('.' :: acc)
    else pathExtAux rest (c :: acc)

/-- `filepath.Ext`: the suffix beginning at the final dot in the final
path element, `""` when there is no dot. -/
def pathExt (p : String) : String := pathExtAux p.data.reverse []

/-! ## Diff parser (`internal/parser/parser.go`) -/

/-- `parser.FileStat`: per-file diff statistics. -/
structure FileStat where
  path : String
  added : Nat
  deleted : Nat
  churn : Nat
deriving Repr, DecidableEq

/-- `parser.parseDiffHeader`: extract the b-side path from a
`diff --git a/... b/...` header line. -/
def parseDiffHeader (line : String) : String :=
  match splitFirst line " b/" with
  | some (_, rest) => rest
  | none =>
    let trimmed := trimPrefixS line "diff --git "
    match splitFirst trimmed " " with
    | some (_, snd) => trimPrefixS snd "b/"
    | none => trimmed

/-- The parser's loop state: emitted records, the in-progress record, and
the binary-file flag. -/
structure ParseState where
  stats : List FileStat
  current : Option FileStat
  inBinary : Bool
deriving Repr, DecidableEq

/-- `flush` inside `parser.Parse`: finalize the in-progress record,
computing `churn = added + deleted`. -/
def flushPS (st : ParseState) : ParseState :=
  match st.current with
  | none => st
  | some c =>
    { st with stats := st.stats ++ [{ c with churn := c.added + c.deleted }], current := none }

/-- One iteration of the scan loop in `parser.Parse`. -/
def parseLine (emptyMode : String) (st : ParseState) (line : String) : ParseState :=
  if hasPrefixS line "diff --git " then
    let st := flushPS st
    { st with inBinary := false, current := some ⟨parseDiffHeader line, 0, 0, 0⟩ }
  else
    match st.current with
    | none => st
    | some cur =>
      if hasPrefixS line "rename to " then
        { st with current := some { cur with path := trimPrefixS line "rename to " } }
      else if hasPrefixS line "Binary files " then
        { st with inBinary := true }
      else if st.inBinary then st
      else if hasPrefixS line "+++" || hasPrefixS line "---" then st
      else if hasPrefixS line "+" then
        let content := String.mk (line.data.drop 1)
        if emptyMode ≠ "include" ∧ isBlank content then st
        else { st with current := some { cur with added := cur.added + 1 } }
      else if hasPrefixS line "-" then
        let content := String.mk (line.data.drop 1)
        if emptyMode ≠ "include" ∧ isBlank content then st
        else { st with current := some { cur with deleted := cur.deleted + 1 } }
      else st

/-- `parser.Parse` on an already-scanned list of lines (the scanner and
its I/O error path are external; diff content itself is never invalid). -/
def parse (lines : List String) (emptyMode : String) : List FileStat :=
  (flushPS (lines.foldl (parseLine emptyMode) ⟨[], none, false⟩)).stats

/-! ## Ref resolution (`internal/gitdiff/gitdiff.go`)

The git process is reached only through `runner.Run "git" "rev-parse"
"--verify" ref`; its success/failure is modelled by a predicate
`ex : String → Bool` (`true` = the ref exists). -/

/-- `gitdiff.ResolveRefs`: explicit base+head, else the positional range,
else the auto-detect fallback chain `origin/HEAD`, `main`, `master`. -/
def resolveRefs (ex : String → Bool) (base head positionalRange : String) :
    Except String String :=
  if base ≠ "" ∧ head ≠ "" then .ok (base ++ "..." ++ head)
  else if positionalRange ≠ "" then .ok positionalRange
  else if ex "origin/HEAD" then .ok "origin/HEAD...HEAD"
  else if ex "main" then .ok "main...HEAD"
  else if ex "master" then .ok "master...HEAD"
  else .error "cannot resolve base ref: tried origin/HEAD, main, master — are you in a git repository?"

/-- `main.parseRefRange`: split `base...head` (first `...`, else first
`..`, else the whole string with an empty head). -/
def parseRefRange (s : String) : String × String :=
  match splitFirst s "..." with
  | some p => p
  | none =>
    match splitFirst s ".." with
    | some p => p
    | none => (s, "")

/-- Outcome of the ref-resolution portion of `main.run`: the range handed
to `git diff`, the worktree flag, and the metadata base/head labels. -/
structure ResolveOutcome where
  refRange : String
  worktreeMode : Bool
  metaBase : String
  metaHead : String
deriving Repr, DecidableEq

/-- The ref-resolution fragment of `main.run` (steps 2, the dirty-worktree
substitution, and the metadata labels of step 7).  `dirty` models
`gitdiff.WorktreeDirty` (`none` = the query itself failed), `mb` models
`gitdiff.MergeBase` (`none` = error). -/
def runResolveRefs (ex : String → Bool) (dirty : Option Bool)
    (mb : String → String → Option String) (base head revRange : String) :
    Except String ResolveOutcome :=
  let autoRefMode := base = "" ∧ head = "" ∧ revRange = ""
  match resolveRefs ex base head revRange with
  | .error e => .error e
  | .ok r0 =>
    let step :=
      if autoRefMode ∧ dirty = some true then
        let baseRef := (parseRefRange r0).1
        let headRef := (parseRefRange r0).2
        if baseRef ≠ "" ∧ headRef ≠ "" then
          match mb baseRef headRef with
          | some mergeBase => (mergeBase, true)
          | none => (r0, false)
        else (r0, false)
      else (r0, false)
    let refRange := step.1
    let worktreeMode := step.2
    .ok ⟨refRange, worktreeMode, (parseRefRange refRange).1,
         if worktreeMode then "WORKTREE" else (parseRefRange refRange).2⟩

/-! ## Filter (`internal/filter/filter.go`)

The third-party glob matcher `doublestar.Match` is external; it is
modelled by a parameter `gm : String → String → Bool` (pattern, path). -/

/-- `filter.FilterConfig`. -/
structure FilterConfig where
  include_ : List String
  exclude : List String
  categories : List String
deriving Repr, DecidableEq

/-- `filter.matchInclude`: true when there are no include patterns or any
pattern matches. -/
def matchInclude (gm : String → String → Bool) (path : String) (patterns : List String) : Bool :=
  if patterns = [] then true else patterns.any (fun p => gm p path)

/-- `filter.matchExclude`: true when some exclude pattern matches. -/
def matchExclude (gm : String → String → Bool) (path : String) (patterns : List String) : Bool :=
  patterns.any (fun p => gm p path)

/-- `filter.matchCategory`: true when no category restriction is set or
the file's category is in the list.  (`main.run` always supplies a
category callback, so the nil-callback branch of the Go code is not
reachable in the pipeline.) -/
def matchCategory (categoryFn : String → String) (path : String) (categories : List String) : Bool :=
  if categories = [] then true else categories.any (fun c => c == categoryFn path)

/-- `filter.Filter`: the loop with its three `continue` guards, in order. -/
def filterRecords (gm : String → String → Bool) (stats : List FileStat)
    (cfg : FilterConfig) (categoryFn : String → String) : List FileStat :=
  match stats with
  | [] => []
  | fs :: rest =>
    if matchInclude gm fs.path cfg.include_ = false then
      filterRecords gm rest cfg categoryFn
    else if matchExclude gm fs.path cfg.exclude then
      filterRecords gm rest cfg categoryFn
    else if matchCategory categoryFn fs.path cfg.categories = false then
      filterRecords gm rest cfg categoryFn
    else fs :: filterRecords gm rest cfg categoryFn

/-! ## Classifier (`internal/classify/classify.go`)

The stdlib glob matcher `filepath.Match` (used only for user override
patterns) is external; it is modelled by a parameter
`fpMatch : String → String → Bool` (pattern, name), returning `false`
on malformed patterns exactly as the call site discards the error. -/

/-- `config.CategoryConfig`. -/
structure CategoryConfig where
  patterns : List String
  extensions : List String
deriving Repr, DecidableEq

/-- Category constants. -/
def Generated : String := "generated"

def Docs : String := "docs"

def Tests : String := "tests"

def Source : String := "source"

def Other : String := "other"

/-- `classify.generatedDirs`. -/
def generatedDirs : List String := ["vendor/", "node_modules/", "dist/", "build/"]

/-- `classify.lockfiles` (keys of the set). -/
def lockfiles : List String :=
  ["package-lock.json", "pnpm-lock.yaml", "yarn.lock", "go.sum", "cargo.lock",
   "gemfile.lock", "composer.lock", "poetry.lock", "pipfile.lock", "bun.lockb", "flake.lock"]

/-- `classify.docExtensions` (keys of the set). -/
def docExtensions : List String := [".md", ".markdown", ".mdx", ".rst", ".adoc", ".txt"]

/-- `classify.docDirs`. -/
def docDirs : List String := ["docs/", "documentation/"]

/-- `classify.testDirs`. -/
def testDirs : List String := ["test/", "tests/", "spec/", "specs/", "__tests__/"]

/-- `classify.sourceExtensions`: extension → language. -/
def sourceExtensions : List (String × String) :=
  [(".go", "Go"), (".rs", "Rust"),
   (".py", "Python"), (".pyi", "Python"), (".pyw", "Python"),
   (".js", "JavaScript"), (".mjs", "JavaScript"), (".cjs", "JavaScript"),
   (".ts", "TypeScript"), (".mts", "TypeScript"), (".cts", "TypeScript"),
   (".jsx", "JSX"), (".tsx", "TSX"),
   (".java", "Java"), (".kt", "Kotlin"), (".kts", "Kotlin"),
   (".c", "C"), (".h", "C"),
   (".cpp", "C++"), (".cc", "C++"), (".cxx", "C++"), (".hpp", "C++"), (".hxx", "C++"), (".hh", "C++"),
   (".cs", "C#"), (".php", "PHP"),
   (".rb", "Ruby"), (".rake", "Ruby"),
   (".swift", "Swift"), (".scala", "Scala"), (".sc", "Scala"),
   (".sh", "Shell"), (".bash", "Shell"), (".zsh", "Shell"),
   (".lua", "Lua"), (".pl", "Perl"), (".pm", "Perl"), (".r", "R"),
   (".dart", "Dart"), (".ex", "Elixir"), (".exs", "Elixir"),
   (".erl", "Erlang"), (".hrl", "Erlang"),
   (".hs", "Haskell"), (".lhs", "Haskell"),
   (".ml", "OCaml"), (".mli", "OCaml"),
   (".clj", "Clojure"), (".cljs", "Clojure"), (".cljc", "Clojure"),
   (".groovy", "Groovy"), (".zig", "Zig"), (".nim", "Nim"), (".v", "V"),
   (".sql", "SQL"), (".html", "HTML"), (".htm", "HTML"),
   (".css", "CSS"), (".scss", "CSS"), (".sass", "CSS"), (".less", "CSS"),
   (".vue", "Vue"), (".svelte", "Svelte"),
   (".yaml", "YAML"), (".yml", "YAML"), (".toml", "TOML"), (".json", "JSON"),
   (".xml", "XML"), (".proto", "Protobuf"),
   (".graphql", "GraphQL"), (".gql", "GraphQL"),
   (".tf", "Terraform"), (".tfvars", "Terraform")]

/-- `classify.detectLanguage`: language of a (lowercased) extension via
the source-extension table, `""` when unknown. -/
def detectLanguage (ext : String) : String :=
  (sourceExtensions.lookup ext).getD ""

/-- `classify.matchesCustom`: glob match on the bare filename, directory
prefix for patterns ending in `/`, substring for plain patterns, and a
case-insensitive extension list tolerating a missing leading dot. -/
def matchesCustom (fpMatch : String → String → Bool) (normalized base : String)
    (cc : CategoryConfig) : Bool :=
  cc.patterns.any (fun pattern =>
    let p := toSlash pattern
    fpMatch p base ||
    (hasSuffixS p "/" && (hasPrefixS normalized p || containsS normalized ("/" ++ p))) ||
    (!containsAnyS p "*?[" && !hasSuffixS p "/" && containsS normalized p)) ||
  (let ext := asciiLower (pathExt base)
   cc.extensions.any (fun e =>
     let cmpExt := asciiLower e
     let cmpExt := if !hasPrefixS cmpExt "." then "." ++ cmpExt else cmpExt
     ext == cmpExt))

/-- The custom-override check a category method runs first
(`if cc, ok := c.customCategories[cat]; ok { if matchesCustom ... }`). -/
def customHit (fpMatch : String → String → Bool)
    (custom : List (String × CategoryConfig)) (cat normalized base : String) : Bool :=
  match custom.lookup cat with
  | some cc => matchesCustom fpMatch normalized base cc
  | none => false

/-- `Classifier.isGenerated`. -/
def isGenerated (fpMatch : String → String → Bool)
    (custom : List (String × CategoryConfig)) (normalized base : String) : Bool :=
  customHit fpMatch custom Generated normalized base ||
  generatedDirs.any (fun dir => hasPrefixS normalized dir || containsS normalized ("/" ++ dir)) ||
  lockfiles.contains (asciiLower base)

/-- `Classifier.isDocs`. -/
def isDocs (fpMatch : String → String → Bool)
    (custom : List (String × CategoryConfig)) (normalized ext : String) : Bool :=
  customHit fpMatch custom Docs normalized (pathBase normalized) ||
  docExtensions.contains ext ||
  docDirs.any (fun dir => hasPrefixS normalized dir || containsS normalized ("/" ++ dir))

/-- `Classifier.isTests`. -/
def isTests (fpMatch : String → String → Bool)
    (custom : List (String × CategoryConfig)) (normalized base : String) : Bool :=
  customHit fpMatch custom Tests normalized base ||
  testDirs.any (fun dir => hasPrefixS normalized dir || containsS normalized ("/" ++ dir)) ||
  (let lower := asciiLower base
   containsS lower ".test." || containsS lower ".spec." ||
   hasSuffixS lower "_test.go" ||
   (hasSuffixS lower ".py" &&
    (let name := trimSuffixS lower ".py"
     hasPrefixS name "test_" || hasSuffixS name "_test")) ||
   hasSuffixS base "Test.java" || hasSuffixS base "Tests.java" ||
   hasSuffixS base "Test.kt" ||
   (hasSuffixS lower ".rb" &&
    (let name := trimSuffixS lower ".rb"
     hasSuffixS name "_spec" || hasPrefixS name "test_")))

/-- `Classifier.isSource`. -/
def isSource (custom : List (String × CategoryConfig)) (ext : String) : Bool :=
  (match custom.lookup Source with
   | some cc =>
     cc.extensions.any (fun e =>
       let cmpExt := asciiLower e
       let cmpExt := if !hasPrefixS cmpExt "." then "." ++ cmpExt else cmpExt
       ext == cmpExt)
   | none => false) ||
  (sourceExtensions.lookup ext).isSome

/-- `Classifier.Classify`: first-match priority order
generated > docs > tests > source > other, plus the language tag. -/
def classifyPath (fpMatch : String → String → Bool)
    (custom : List (String × CategoryConfig)) (path : String) : String × String :=
  let normalized := toSlash path
  let base := pathBase path
  let ext := asciiLower (pathExt base)
  if isGenerated fpMatch custom normalized base then (Generated, detectLanguage ext)
  else if isDocs fpMatch custom normalized ext then (Docs, detectLanguage ext)
  else if isTests fpMatch custom normalized base then (Tests, detectLanguage ext)
  else if isSource custom ext then (Source, detectLanguage ext)
  else (Other, detectLanguage ext)

/-! ## Aggregation (`main.run` step 7) and JSON rendering
(`internal/output/output.go`)

Go's `map[string]output.CategoryTotal` is modelled as an association
list; `ct := catTotals[cat]; ...; catTotals[cat] = ct` becomes an
insert-or-update on that list (key membership is what the claims are
about; Go map iteration order is unspecified anyway). -/

/-- `output.CategoryTotal`. -/
structure CategoryTotal where
  added : Nat
  deleted : Nat
  churn : Nat
  fileCount : Nat
deriving Repr, DecidableEq

/-- `output.FileStat`: per-file statistics with classification info. -/
structure OutFileStat where
  path : String
  added : Nat
  deleted : Nat
  churn : Nat
  category : String
  language : String
deriving Repr, DecidableEq

/-- The zero `output.CategoryTotal` (Go's map zero value). -/
def CategoryTotal.zero : CategoryTotal := ⟨0, 0, 0, 0⟩

/-- Accumulate one record into a category total (the four `+=` lines of
the aggregation loop). -/
def CategoryTotal.bump (ct : CategoryTotal) (fs : FileStat) : CategoryTotal :=
  ⟨ct.added + fs.added, ct.deleted + fs.deleted, ct.churn + fs.churn, ct.fileCount + 1⟩

/-- `ct := catTotals[cat]; ct.add(fs); catTotals[cat] = ct` on the
association-list model: update the entry in place, or append a fresh one
bumped from the zero value. -/
def insertCat : List (String × CategoryTotal) → String → FileStat → List (String × CategoryTotal)
  | [], cat, fs => [(cat, CategoryTotal.zero.bump fs)]
  | (k, v) :: t, cat, fs =>
    if k = cat then (k, v.bump fs) :: t else (k, v) :: insertCat t cat fs

/-- State of the aggregation loop in `main.run` step 7. -/
structure AggState where
  fileStats : List OutFileStat
  catTotals : List (String × CategoryTotal)
  totalAdded : Nat
  totalDeleted : Nat
  totalFiles : Nat
deriving Repr, DecidableEq

/-- One iteration of the aggregation loop (`for _, fs := range filtered`);
`cat, lang := classifier.Classify(fs.Path)` becomes the two projections
of `classifyFn fs.path`. -/
def aggStep (classifyFn : String → String × String) (s : AggState) (fs : FileStat) : AggState :=
  let cat := (classifyFn fs.path).1
  let lang := (classifyFn fs.path).2
  { fileStats := s.fileStats ++ [⟨fs.path, fs.added, fs.deleted, fs.churn, cat, lang⟩]
    catTotals := insertCat s.catTotals cat fs
    totalAdded := s.totalAdded + fs.added
    totalDeleted := s.totalDeleted + fs.deleted
    totalFiles := s.totalFiles + 1 }

/-- `output.Meta` (timestamp omitted: wall-clock time is external). -/
structure Meta where
  base : String
  head : String
  empty : String
  pathspecs : List String
deriving Repr, DecidableEq

/-- `output.Summary`. -/
structure Summary where
  totals : CategoryTotal
  categoryTotals : List (String × CategoryTotal)
  fileStats : List OutFileStat
  meta : Meta
deriving Repr, DecidableEq

/-- `main.run` step 7: fold the filtered records and build the Summary,
with `Totals.Churn = totalAdded + totalDeleted`. -/
def buildSummary (classifyFn : String → String × String) (filtered : List FileStat)
    (meta : Meta) : Summary :=
  let s := filtered.foldl (aggStep classifyFn) ⟨[], [], 0, 0, 0⟩
  { totals := ⟨s.totalAdded, s.totalDeleted, s.totalAdded + s.totalDeleted, s.totalFiles⟩
    categoryTotals := s.catTotals
    fileStats := s.fileStats
    meta := meta }

/-- `output.jsonCatDetail`. -/
structure JsonCatDetail where
  added : Nat
  deleted : Nat
  churn : Nat
  files : List String
  fileCount : Nat
deriving Repr, DecidableEq

/-- The `by_category` object built by `output.RenderJSON`: every entry of
`summary.CategoryTotals` is copied, with the per-category file list. -/
def jsonByCategory (summary : Summary) : List (String × JsonCatDetail) :=
  summary.categoryTotals.map (fun p =>
    (p.1, ⟨p.2.added, p.2.deleted, p.2.churn,
           (summary.fileStats.filter (fun f => f.category == p.1)).map (·.path),
           p.2.fileCount⟩))

/-- Reading `catTotals[cat]` on the association-list model of the Go map
(zero value when the key is absent). -/
def lookupCat : List (String × CategoryTotal) → String → CategoryTotal
  | [], _ => CategoryTotal.zero
  | (k, v) :: t, c => if k = c then v else lookupCat t c

/-- The key set of the category-totals map. -/
def keysCT (l : List (String × CategoryTotal)) : List String := l.map Prod.fst

/-- Sum of the `churn` fields over all category totals. -/
def catChurnSum (l : List (String × CategoryTotal)) : Nat :=
  (l.map (fun p => p.2.churn)).sum

/-- Sum of the `fileCount` fields over all category totals. -/
def catFileCountSum (l : List (String × CategoryTotal)) : Nat :=
  (l.map (fun p => p.2.fileCount)).sum

/-! ## Pipeline flag validation (`main.run`, top of the function)

`run` validates `--empty` before anything else and exits with code 2 on
an invalid value; only afterwards is the diff parsed, with the merged
config's empty mode (built-in default `"exclude"`, overridden by the
non-empty CLI value — the config-file layers are external files, absent
here exactly as `config.loadFile` treats missing files). -/

/-- Exit code 2 (`exitInvalidConfig`). -/
def exitInvalidConfig : Nat := 2

/-- `config.merge` restricted to the `Empty` field: a non-empty override
replaces the base value. -/
def mergeEmpty (base override : String) : String :=
  if override ≠ "" then override else base

/-- The `--empty` validation at the top of `main.run` followed by the
parse stage: an invalid value exits with `exitInvalidConfig` before any
parsing; otherwise the diff is parsed with the merged empty mode. -/
def runParseStage (empty : String) (lines : List String) : Except Nat (List FileStat) :=
  if empty ≠ "include" ∧ empty ≠ "exclude" then .error exitInvalidConfig
  else .ok (parse lines (mergeEmpty "exclude" empty))

/-! ## Helper lemmas -/

theorem hasPrefixS_mk (pre : String) (l : List Char) :
    hasPrefixS (String.mk l) pre = pre.data.isPrefixOf l := rfl

theorem isPrefixOf_cons_cons (a b : Char) (as bs : List Char) :
    (a :: as).isPrefixOf (b :: bs) = ((a == b) && as.isPrefixOf bs) := rfl

theorem isPrefixOf_nil_left (l : List Char) : ([] : List Char).isPrefixOf l = true := by
  cases l <;> rfl

/-- A non-empty prefix whose head differs from the line's first character
never matches. -/
theorem hasPrefixS_false_of_head_ne (pre : String) (c : Char) (ws : List Char)
    (d : Char) (rest : List Char) (hp : pre.data = d :: rest) (hne : d ≠ c) :
    hasPrefixS (String.mk (c :: ws)) pre = false := by
  rw [hasPrefixS_mk, hp, isPrefixOf_cons_cons]
  simp [hne]

/-- A character of a blank remainder is white space, hence differs from
any non-space character. -/
theorem beq_false_of_goSpace (x a : Char) (hx : goSpace x = false) (ha : goSpace a = true) :
    (x == a) = false := by
  cases h : x == a with
  | false => rfl
  | true =>
    have : x = a := by simpa using h
    rw [this, ha] at hx
    exact absurd hx (by simp)

/-- A blank remainder never begins with two copies of a non-space sign
character (so `+`/`-` count lines built from a blank remainder are never
mistaken for `+++`/`---` metadata). -/
theorem blank_no_double_sign (x : Char) (hx : goSpace x = false) (ws : List Char)
    (hws : ws.all goSpace = true) : List.isPrefixOf [x, x] ws = false := by
  cases ws with
  | nil => rfl
  | cons a t =>
    rw [isPrefixOf_cons_cons]
    have ha : goSpace a = true := by
      simp only [List.all_cons, Bool.and_eq_true] at hws
      exact hws.1
    simp [beq_false_of_goSpace x a hx ha]

/-- In `exclude` mode, an added line whose remainder is blank leaves the
parser state untouched. -/
theorem parseLine_plus_blank_exclude (stats : List FileStat) (cur : FileStat) (ws : List Char)
    (hws : ws.all goSpace = true) :
    parseLine "exclude" ⟨stats, some cur, false⟩ (String.mk ('+' :: ws)) =
      ⟨stats, some cur, false⟩ := by
  have c1 : hasPrefixS (String.mk ('+' :: ws)) "diff --git " = false :=
    hasPrefixS_false_of_head_ne _ _ _ 'd' "iff --git ".data rfl (by decide)
  have c2 : hasPrefixS (String.mk ('+' :: ws)) "rename to " = false :=
    hasPrefixS_false_of_head_ne _ _ _ 'r' "ename to ".data rfl (by decide)
  have c3 : hasPrefixS (String.mk ('+' :: ws)) "Binary files " = false :=
    hasPrefixS_false_of_head_ne _ _ _ 'B' "inary files ".data rfl (by decide)
  have c4 : hasPrefixS (String.mk ('+' :: ws)) "+++" = false := by
    rw [hasPrefixS_mk, show "+++".data = '+' :: ['+', '+'] from rfl, isPrefixOf_cons_cons,
      blank_no_double_sign '+' (by decide) ws hws]
    simp
  have c5 : hasPrefixS (String.mk ('+' :: ws)) "---" = false :=
    hasPrefixS_false_of_head_ne _ _ _ '-' "--".data rfl (by decide)
  have c6 : hasPrefixS (String.mk ('+' :: ws)) "+" = true := by
    rw [hasPrefixS_mk, show "+".data = '+' :: [] from rfl, isPrefixOf_cons_cons,
      isPrefixOf_nil_left]
    simp
  have hdata : (String.mk ('+' :: ws)).data = '+' :: ws := rfl
  have hblank : isBlank (String.mk ws) = true := hws
  simp [parseLine, c1, c2, c3, c4, c5, c6, hdata, hblank,
    show ("exclude" : String) ≠ "include" from by decide]

/-- In `include` mode, an added line whose remainder is blank increments
the added counter. -/
theorem parseLine_plus_blank_include (stats : List FileStat) (cur : FileStat) (ws : List Char)
    (hws : ws.all goSpace = true) :
    parseLine "include" ⟨stats, some cur, false⟩ (String.mk ('+' :: ws)) =
      ⟨stats, some { cur with added := cur.added + 1 }, false⟩ := by
  have c1 : hasPrefixS (String.mk ('+' :: ws)) "diff --git " = false :=
    hasPrefixS_false_of_head_ne _ _ _ 'd' "iff --git ".data rfl (by decide)
  have c2 : hasPrefixS (String.mk ('+' :: ws)) "rename to " = false :=
    hasPrefixS_false_of_head_ne _ _ _ 'r' "ename to ".data rfl (by decide)
  have c3 : hasPrefixS (String.mk ('+' :: ws)) "Binary files " = false :=
    hasPrefixS_false_of_head_ne _ _ _ 'B' "inary files ".data rfl (by decide)
  have c4 : hasPrefixS (String.mk ('+' :: ws)) "+++" = false := by
    rw [hasPrefixS_mk, show "+++".data = '+' :: ['+', '+'] from rfl, isPrefixOf_cons_cons,
      blank_no_double_sign '+' (by decide) ws hws]
    simp
  have c5 : hasPrefixS (String.mk ('+' :: ws)) "---" = false :=
    hasPrefixS_false_of_head_ne _ _ _ '-' "--".data rfl (by decide)
  have c6 : hasPrefixS (String.mk ('+' :: ws)) "+" = true := by
    rw [hasPrefixS_mk, show "+".data = '+' :: [] from rfl, isPrefixOf_cons_cons,
      isPrefixOf_nil_left]
    simp
  simp [parseLine, c1, c2, c3, c4, c5, c6]

/-- In `exclude` mode, a deleted line whose remainder is blank leaves the
parser state untouched. -/
theorem parseLine_minus_blank_exclude (stats : List FileStat) (cur : FileStat) (ws : List Char)
    (hws : ws.all goSpace = true) :
    parseLine "exclude" ⟨stats, some cur, false⟩ (String.mk ('-' :: ws)) =
      ⟨stats, some cur, false⟩ := by
  have c1 : hasPrefixS (String.mk ('-' :: ws)) "diff --git " = false :=
    hasPrefixS_false_of_head_ne _ _ _ 'd' "iff --git ".data rfl (by decide)
  have c2 : hasPrefixS (String.mk ('-' :: ws)) "rename to " = false :=
    hasPrefixS_false_of_head_ne _ _ _ 'r' "ename to ".data rfl (by decide)
  have c3 : hasPrefixS (String.mk ('-' :: ws)) "Binary files " = false :=
    hasPrefixS_false_of_head_ne _ _ _ 'B' "inary files ".data rfl (by decide)
  have c4 : hasPrefixS (String.mk ('-' :: ws)) "+++" = false :=
    hasPrefixS_false_of_head_ne _ _ _ '+' "++".data rfl (by decide)
  have c5 : hasPrefixS (String.mk ('-' :: ws)) "---" = false := by
    rw [hasPrefixS_mk, show "---".data = '-' :: ['-', '-'] from rfl, isPrefixOf_cons_cons,
      blank_no_double_sign '-' (by decide) ws hws]
    simp
  have c6 : hasPrefixS (String.mk ('-' :: ws)) "+" = false :=
    hasPrefixS_false_of_head_ne _ _ _ '+' "".data rfl (by decide)
  have c7 : hasPrefixS (String.mk ('-' :: ws)) "-" = true := by
    rw [hasPrefixS_mk, show "-".data = '-' :: [] from rfl, isPrefixOf_cons_cons,
      isPrefixOf_nil_left]
    simp
  have hdata : (String.mk ('-' :: ws)).data = '-' :: ws := rfl
  have hblank : isBlank (String.mk ws) = true := hws
  simp [parseLine, c1, c2, c3, c4, c5, c6, c7, hdata, hblank,
    show ("exclude" : String) ≠ "include" from by decide]

/-- In `include` mode, a deleted line whose remainder is blank increments
the deleted counter. -/
theorem parseLine_minus_blank_include (stats : List FileStat) (cur : FileStat) (ws : List Char)
    (hws : ws.all goSpace = true) :
    parseLine "include" ⟨stats, some cur, false⟩ (String.mk ('-' :: ws)) =
      ⟨stats, some { cur with deleted := cur.deleted + 1 }, false⟩ := by
  have c1 : hasPrefixS (String.mk ('-' :: ws)) "diff --git " = false :=
    hasPrefixS_false_of_head_ne _ _ _ 'd' "iff --git ".data rfl (by decide)
  have c2 : hasPrefixS (String.mk ('-' :: ws)) "rename to " = false :=
    hasPrefixS_false_of_head_ne _ _ _ 'r' "ename to ".data rfl (by decide)
  have c3 : hasPrefixS (String.mk ('-' :: ws)) "Binary files " = false :=
    hasPrefixS_false_of_head_ne _ _ _ 'B' "inary files ".data rfl (by decide)
  have c4 : hasPrefixS (String.mk ('-' :: ws)) "+++" = false :=
    hasPrefixS_false_of_head_ne _ _ _ '+' "++".data rfl (by decide)
  have c5 : hasPrefixS (String.mk ('-' :: ws)) "---" = false := by
    rw [hasPrefixS_mk, show "---".data = '-' :: ['-', '-'] from rfl, isPrefixOf_cons_cons,
      blank_no_double_sign '-' (by decide) ws hws]
    simp
  have c6 : hasPrefixS (String.mk ('-' :: ws)) "+" = false :=
    hasPrefixS_false_of_head_ne _ _ _ '+' "".data rfl (by decide)
  have c7 : hasPrefixS (String.mk ('-' :: ws)) "-" = true := by
    rw [hasPrefixS_mk, show "-".data = '-' :: [] from rfl, isPrefixOf_cons_cons,
      isPrefixOf_nil_left]
    simp
  simp [parseLine, c1, c2, c3, c4, c5, c6, c7]

/-- Once the binary flag is set, any line that is neither a new file
header nor a rename-target line leaves the parser state untouched. -/
theorem parseLine_binary_ignores (m : String) (st : ParseState) (line : String)
    (hbin : st.inBinary = true)
    (hhdr : hasPrefixS line "diff --git " = false)
    (hren : hasPrefixS line "rename to " = false) :
    parseLine m st line = st := by
  obtain ⟨stats, cur?, bin⟩ := st
  simp only at hbin
  subst hbin
  cases cur? with
  | none => simp [parseLine, hhdr]
  | some cur =>
    by_cases hb : hasPrefixS line "Binary files " = true <;>
      simp [parseLine, hhdr, hren, hb]

/-! ## Claim theorems -/

/-- C2 (amended): once a binary-file marker is seen for the current file,
all subsequent lines for that file are ignored until the next file
header, EXCEPT rename-target lines, which still override the record's
path; the record keeps zero counts.  A stream with a binary marker for
`image.png` followed by a one-line addition to `code.go` yields exactly
two records: `image.png` with all-zero counts and `code.go` with
`added = 1, deleted = 0`. -/
theorem binary_marker_skips_rest_except_rename :
    parse ["diff --git a/image.png b/image.png",
           "Binary files a/image.png and b/image.png differ",
           "diff --git a/code.go b/code.go",
           "--- a/code.go", "+++ b/code.go", "@@ -0,0 +1 @@", "+hello"] "exclude" =
      [⟨"image.png", 0, 0, 0⟩, ⟨"code.go", 1, 0, 1⟩]
    ∧ parse ["diff --git a/image.png b/image.png",
             "Binary files a/image.png and b/image.png differ",
             "rename to evil.png"] "exclude" = [⟨"evil.png", 0, 0, 0⟩]
    ∧ ∀ (m : String) (st : ParseState) (line : String), st.inBinary = true →
        hasPrefixS line "diff --git " = false →
        hasPrefixS line "rename to " = false →
        parseLine m st line = st :=
  ⟨by decide, by decide, parseLine_binary_ignores⟩

/-- Witness for C2's quantified part at a concrete binary-mode state and
an `index`-style metadata line. -/
theorem binary_marker_skips_rest_except_rename_witness :
    parseLine "exclude" ⟨[], some ⟨"image.png", 0, 0, 0⟩, true⟩ "index 0000000..1111111" =
      ⟨[], some ⟨"image.png", 0, 0, 0⟩, true⟩ :=
  binary_marker_skips_rest_except_rename.2.2 "exclude"
    ⟨[], some ⟨"image.png", 0, 0, 0⟩, true⟩ "index 0000000..1111111"
    (by decide) (by decide) (by decide)

/-- C2 counterexample to the claim as stated: the rename-target line
arriving after the binary marker is NOT ignored — it rewrites the
record's path to `evil.png`, so adding it changes the parse result. -/
theorem binary_marker_rename_not_ignored :
    parse ["diff --git a/image.png b/image.png",
           "Binary files a/image.png and b/image.png differ",
           "rename to evil.png"] "exclude" ≠
      parse ["diff --git a/image.png b/image.png",
             "Binary files a/image.png and b/image.png differ"] "exclude"
    ∧ parse ["diff --git a/image.png b/image.png",
             "Binary files a/image.png and b/image.png differ",
             "rename to evil.png"] "exclude" = [⟨"evil.png", 0, 0, 0⟩] :=
  ⟨by decide, by decide⟩

/-- C8: a diff whose only changes are two added blank lines and one
added non-blank line yields `added = 1` under empty-line mode `exclude`
and `added = 3` under `include`; blank deleted lines are likewise
discarded under `exclude` and counted under `include`. -/
theorem parse_empty_line_modes (ws₁ ws₂ : List Char)
    (h₁ : ws₁.all goSpace = true) (h₂ : ws₂.all goSpace = true) :
    parse ["diff --git a/f.go b/f.go",
           String.mk ('+' :: ws₁), String.mk ('+' :: ws₂), "+x"] "exclude" =
      [⟨"f.go", 1, 0, 1⟩]
    ∧ parse ["diff --git a/f.go b/f.go",
             String.mk ('+' :: ws₁), String.mk ('+' :: ws₂), "+x"] "include" =
      [⟨"f.go", 3, 0, 3⟩]
    ∧ parse ["diff --git a/f.go b/f.go", String.mk ('-' :: ws₁)] "exclude" =
      [⟨"f.go", 0, 0, 0⟩]
    ∧ parse ["diff --git a/f.go b/f.go", String.mk ('-' :: ws₁)] "include" =
      [⟨"f.go", 0, 1, 1⟩] := by
  refine ⟨?_, ?_, ?_, ?_⟩
  · simp only [parse, List.foldl]
    rw [show parseLine "exclude" ⟨[], none, false⟩ "diff --git a/f.go b/f.go" =
          ⟨[], some ⟨"f.go", 0, 0, 0⟩, false⟩ from by decide,
        parseLine_plus_blank_exclude _ _ _ h₁, parseLine_plus_blank_exclude _ _ _ h₂]
    decide
  · simp only [parse, List.foldl]
    rw [show parseLine "include" ⟨[], none, false⟩ "diff --git a/f.go b/f.go" =
          ⟨[], some ⟨"f.go", 0, 0, 0⟩, false⟩ from by decide,
        parseLine_plus_blank_include _ _ _ h₁, parseLine_plus_blank_include _ _ _ h₂]
    decide
  · simp only [parse, List.foldl]
    rw [show parseLine "exclude" ⟨[], none, false⟩ "diff --git a/f.go b/f.go" =
          ⟨[], some ⟨"f.go", 0, 0, 0⟩, false⟩ from by decide,
        parseLine_minus_blank_exclude _ _ _ h₁]
    decide
  · simp only [parse, List.foldl]
    rw [show parseLine "include" ⟨[], none, false⟩ "diff --git a/f.go b/f.go" =
          ⟨[], some ⟨"f.go", 0, 0, 0⟩, false⟩ from by decide,
        parseLine_minus_blank_include _ _ _ h₁]
    decide

/-- Witness for C8 at concrete blank remainders: one space and the empty
remainder. -/
theorem parse_empty_line_modes_witness :
    parse ["diff --git a/f.go b/f.go", String.mk ('+' :: [' ']),
           String.mk ('+' :: []), "+x"] "exclude" = [⟨"f.go", 1, 0, 1⟩]
    ∧ parse ["diff --git a/f.go b/f.go", String.mk ('+' :: [' ']),
             String.mk ('+' :: []), "+x"] "include" = [⟨"f.go", 3, 0, 3⟩] :=
  ⟨(parse_empty_line_modes [' '] [] (by decide) (by decide)).1,
   (parse_empty_line_modes [' '] [] (by decide) (by decide)).2.1⟩

/-- C3: the pipeline rejects an `emptyLineMode` value that is neither
`include` nor `exclude` with exit code 2 before any parsing happens,
rather than silently treating it as one of the valid modes. -/
theorem run_rejects_invalid_empty_mode (e : String) (lines : List String)
    (h₁ : e ≠ "include") (h₂ : e ≠ "exclude") :
    runParseStage e lines = .error exitInvalidConfig := by
  simp [runParseStage, h₁, h₂]

/-- Witness for C3 at the concrete invalid mode `"bogus"`. -/
theorem run_rejects_invalid_empty_mode_witness :
    runParseStage "bogus" ["+x"] = .error exitInvalidConfig :=
  run_rejects_invalid_empty_mode "bogus" ["+x"] (by decide) (by decide)

/-- C5: with no explicit base/head and no positional range, the resolver
probes `origin/HEAD`, then `main`, then `master`, returning
`<name>...HEAD` for the first that exists; when only `master` exists the
result is `master...HEAD`, and when none exist it fails with an error
naming all three attempted candidates. -/
theorem resolveRefs_fallback_chain (ex : String → Bool) :
    (ex "origin/HEAD" = true → resolveRefs ex "" "" "" = .ok "origin/HEAD...HEAD")
    ∧ (ex "origin/HEAD" = false → ex "main" = true →
        resolveRefs ex "" "" "" = .ok "main...HEAD")
    ∧ (ex "origin/HEAD" = false → ex "main" = false → ex "master" = true →
        resolveRefs ex "" "" "" = .ok "master...HEAD")
    ∧ (ex "origin/HEAD" = false → ex "main" = false → ex "master" = false →
        ∃ msg, resolveRefs ex "" "" "" = .error msg
          ∧ containsS msg "origin/HEAD" = true
          ∧ containsS msg "main" = true
          ∧ containsS msg "master" = true) := by
  refine ⟨fun h₁ => ?_, fun h₁ h₂ => ?_, fun h₁ h₂ h₃ => ?_, fun h₁ h₂ h₃ => ?_⟩
  · simp [resolveRefs, h₁]
  · simp [resolveRefs, h₁, h₂]
  · simp [resolveRefs, h₁, h₂, h₃]
  · exact ⟨"cannot resolve base ref: tried origin/HEAD, main, master — are you in a git repository?",
      by simp [resolveRefs, h₁, h₂, h₃], by decide, by decide, by decide⟩

/-- Witness for C5 in an environment where only `master` exists. -/
theorem resolveRefs_fallback_chain_witness :
    resolveRefs (fun s => s == "master") "" "" "" = .ok "master...HEAD" :=
  (resolveRefs_fallback_chain (fun s => s == "master")).2.2.1 (by decide) (by decide) (by decide)

/-- C10: when exactly one of the explicit base/head refs is given (the
other empty), the lone ref is silently ignored — resolution proceeds
exactly as if neither were given. -/
theorem lone_explicit_ref_ignored (ex : String → Bool) (base head positional : String)
    (h : base = "" ∨ head = "") :
    resolveRefs ex base head positional = resolveRefs ex "" "" positional := by
  rcases h with h | h <;> subst h <;> simp [resolveRefs]

/-- Witness for C10: a lone `--base feature` with a positional range
resolves identically to no explicit refs at all. -/
theorem lone_explicit_ref_ignored_witness :
    resolveRefs (fun _ => false) "feature" "" "main...dev" =
      resolveRefs (fun _ => false) "" "" "main...dev" :=
  lone_explicit_ref_ignored (fun _ => false) "feature" "" "main...dev" (Or.inr rfl)

/-- In fully automatic mode a successful resolution is one of the three
auto-detected ranges. -/
theorem resolveRefs_auto_ok (ex : String → Bool) (r0 : String)
    (h : resolveRefs ex "" "" "" = .ok r0) :
    r0 = "origin/HEAD...HEAD" ∨ r0 = "main...HEAD" ∨ r0 = "master...HEAD" := by
  by_cases h₁ : ex "origin/HEAD" = true
  · simp [resolveRefs, h₁] at h
    exact Or.inl h.symm
  · by_cases h₂ : ex "main" = true
    · simp [resolveRefs, h₁, h₂] at h
      exact Or.inr (Or.inl h.symm)
    · by_cases h₃ : ex "master" = true
      · simp [resolveRefs, h₁, h₂, h₃] at h
        exact Or.inr (Or.inr h.symm)
      · simp [resolveRefs, h₁, h₂, h₃] at h

/-- C4: in fully automatic mode (no explicit refs, no positional range),
when the working-tree-dirty query reports true and the merge-base of the
two auto-detected endpoints is `m`, the range handed to the diff
producer is replaced by `m` (its start; the head becomes the live
working tree), the outcome is marked as worktree mode, and the metadata
head label becomes the sentinel `WORKTREE`. -/
theorem dirty_worktree_substitution (ex : String → Bool)
    (mb : String → String → Option String) (r0 m : String)
    (hres : resolveRefs ex "" "" "" = .ok r0)
    (hmb : mb (parseRefRange r0).1 (parseRefRange r0).2 = some m) :
    runResolveRefs ex (some true) mb "" "" "" =
      .ok ⟨m, true, (parseRefRange m).1, "WORKTREE"⟩ := by
  rcases resolveRefs_auto_ok ex r0 hres with h | h | h
  · subst h
    have e1 : parseRefRange "origin/HEAD...HEAD" = ("origin/HEAD", "HEAD") := by decide
    rw [e1] at hmb
    simp only [] at hmb
    simp [runResolveRefs, hres, e1, hmb,
      show ("origin/HEAD" : String) ≠ "" from by decide,
      show ("HEAD" : String) ≠ "" from by decide]
  · subst h
    have e1 : parseRefRange "main...HEAD" = ("main", "HEAD") := by decide
    rw [e1] at hmb
    simp only [] at hmb
    simp [runResolveRefs, hres, e1, hmb,
      show ("main" : String) ≠ "" from by decide,
      show ("HEAD" : String) ≠ "" from by decide]
  · subst h
    have e1 : parseRefRange "master...HEAD" = ("master", "HEAD") := by decide
    rw [e1] at hmb
    simp only [] at hmb
    simp [runResolveRefs, hres, e1, hmb,
      show ("master" : String) ≠ "" from by decide,
      show ("HEAD" : String) ≠ "" from by decide]

/-- Witness for C4: only `main` exists, the tree is dirty, and the
merge-base query returns `abc123`. -/
theorem dirty_worktree_substitution_witness :
    runResolveRefs (fun s => s == "main") (some true) (fun _ _ => some "abc123") "" "" "" =
      .ok ⟨"abc123", true, "abc123", "WORKTREE"⟩ :=
  dirty_worktree_substitution (fun s => s == "main") (fun _ _ => some "abc123")
    "main...HEAD" "abc123" rfl rfl

/-- C6: a path that lies under a known generated/vendor directory
classifies as `generated` even when its extension is a documentation
extension — the generated check strictly precedes the docs, tests and
source checks, for every override configuration and every glob matcher. -/
theorem generated_precedes_docs (fpMatch : String → String → Bool)
    (custom : List (String × CategoryConfig)) (path : String)
    (hgen : generatedDirs.any (fun dir =>
      hasPrefixS (toSlash path) dir || containsS (toSlash path) ("/" ++ dir)) = true)
    (_hdoc : docExtensions.contains (asciiLower (pathExt (pathBase path))) = true) :
    (classifyPath fpMatch custom path).1 = Generated := by
  have : isGenerated fpMatch custom (toSlash path) (pathBase path) = true := by
    simp [isGenerated, hgen]
  simp [classifyPath, this]

/-- Witness for C6 at `vendor/readme.md`, which matches both the
generated-directory rule and the docs-extension rule. -/
theorem generated_precedes_docs_witness :
    (classifyPath (fun _ _ => false) [] "vendor/readme.md").1 = Generated :=
  generated_precedes_docs (fun _ _ => false) [] "vendor/readme.md" (by decide) (by decide)

theorem matchInclude_eq_true_iff (gm : String → String → Bool) (path : String)
    (ps : List String) :
    matchInclude gm path ps = true ↔ (ps = [] ∨ ∃ p ∈ ps, gm p path = true) := by
  by_cases h : ps = [] <;> simp [matchInclude, h, List.any_eq_true]

theorem matchExclude_eq_true_iff (gm : String → String → Bool) (path : String)
    (ps : List String) :
    matchExclude gm path ps = true ↔ ∃ p ∈ ps, gm p path = true := by
  simp [matchExclude, List.any_eq_true]

theorem matchCategory_eq_true_iff (fn : String → String) (path : String)
    (cs : List String) :
    matchCategory fn path cs = true ↔ (cs = [] ∨ fn path ∈ cs) := by
  by_cases h : cs = []
  · simp [matchCategory, h]
  · simp only [matchCategory, h, if_false, List.any_eq_true, beq_iff_eq, false_or]
    constructor
    · rintro ⟨c, hc, rfl⟩
      exact hc
    · intro hm
      exact ⟨_, hm, rfl⟩

theorem filterRecords_cons_skip_include (gm : String → String → Bool) (fs : FileStat)
    (rest : List FileStat) (cfg : FilterConfig) (fn : String → String)
    (h : matchInclude gm fs.path cfg.include_ = false) :
    filterRecords gm (fs :: rest) cfg fn = filterRecords gm rest cfg fn := by
  simp [filterRecords, h]

theorem filterRecords_cons_skip_exclude (gm : String → String → Bool) (fs : FileStat)
    (rest : List FileStat) (cfg : FilterConfig) (fn : String → String)
    (hI : matchInclude gm fs.path cfg.include_ = true)
    (hE : matchExclude gm fs.path cfg.exclude = true) :
    filterRecords gm (fs :: rest) cfg fn = filterRecords gm rest cfg fn := by
  simp [filterRecords, hI, hE]

theorem filterRecords_cons_skip_category (gm : String → String → Bool) (fs : FileStat)
    (rest : List FileStat) (cfg : FilterConfig) (fn : String → String)
    (hI : matchInclude gm fs.path cfg.include_ = true)
    (hE : matchExclude gm fs.path cfg.exclude = false)
    (hC : matchCategory fn fs.path cfg.categories = false) :
    filterRecords gm (fs :: rest) cfg fn = filterRecords gm rest cfg fn := by
  simp [filterRecords, hI, hE, hC]

theorem filterRecords_cons_keep (gm : String → String → Bool) (fs : FileStat)
    (rest : List FileStat) (cfg : FilterConfig) (fn : String → String)
    (hI : matchInclude gm fs.path cfg.include_ = true)
    (hE : matchExclude gm fs.path cfg.exclude = false)
    (hC : matchCategory fn fs.path cfg.categories = true) :
    filterRecords gm (fs :: rest) cfg fn = fs :: filterRecords gm rest cfg fn := by
  simp [filterRecords, hI, hE, hC]

/-- C7: `Filter` keeps exactly the records that match some include glob
(all records when `include` is empty), match no exclude glob, and whose
category is in the allow-list (all when it is empty): the three
conditions are conjoined, membership within `include` and within
`categories` is disjunctive, and — being a `List.filter` — the output
preserves the input order. -/
theorem filter_and_or_law (gm : String → String → Bool) (fn : String → String)
    (inc exc cats : List String) (rs : List FileStat) :
    filterRecords gm rs ⟨inc, exc, cats⟩ fn =
      rs.filter (fun r => decide ((inc = [] ∨ ∃ p ∈ inc, gm p r.path = true)
        ∧ (∀ p ∈ exc, ¬ gm p r.path = true)
        ∧ (cats = [] ∨ fn r.path ∈ cats))) := by
  induction rs with
  | nil => rfl
  | cons r rest ih =>
    rw [List.filter_cons]
    by_cases hP : (inc = [] ∨ ∃ p ∈ inc, gm p r.path = true)
        ∧ (∀ p ∈ exc, ¬ gm p r.path = true)
        ∧ (cats = [] ∨ fn r.path ∈ cats)
    · have hI : matchInclude gm r.path inc = true :=
        (matchInclude_eq_true_iff gm r.path inc).mpr hP.1
      have hE : matchExclude gm r.path exc = false := by
        cases hx : matchExclude gm r.path exc with
        | false => rfl
        | true =>
          obtain ⟨p, hp, hg⟩ := (matchExclude_eq_true_iff gm r.path exc).mp hx
          exact absurd hg (hP.2.1 p hp)
      have hC : matchCategory fn r.path cats = true :=
        (matchCategory_eq_true_iff fn r.path cats).mpr hP.2.2
      rw [if_pos (decide_eq_true hP), filterRecords_cons_keep gm r rest _ fn hI hE hC, ih]
    · rw [if_neg (fun h => hP (of_decide_eq_true h))]
      by_cases hI : matchInclude gm r.path inc = true
      · by_cases hE : matchExclude gm r.path exc = true
        · rw [filterRecords_cons_skip_exclude gm r rest _ fn hI hE, ih]
        · have hE' : matchExclude gm r.path exc = false := by
            cases hx : matchExclude gm r.path exc with
            | false => rfl
            | true => exact absurd hx hE
          have hC : matchCategory fn r.path cats = false := by
            cases hx : matchCategory fn r.path cats with
            | false => rfl
            | true =>
              exact absurd ⟨(matchInclude_eq_true_iff gm r.path inc).mp hI,
                fun p hp hg => hE ((matchExclude_eq_true_iff gm r.path exc).mpr ⟨p, hp, hg⟩),
                (matchCategory_eq_true_iff fn r.path cats).mp hx⟩ hP
          rw [filterRecords_cons_skip_category gm r rest _ fn hI hE' hC, ih]
      · have hI' : matchInclude gm r.path inc = false := by
          cases hx : matchInclude gm r.path inc with
          | false => rfl
          | true => exact absurd hx hI
        rw [filterRecords_cons_skip_include gm r rest _ fn hI', ih]

/-! ### Aggregation lemmas -/

theorem catChurnSum_insertCat (l : List (String × CategoryTotal)) (c : String) (fs : FileStat) :
    catChurnSum (insertCat l c fs) = catChurnSum l + fs.churn := by
  induction l with
  | nil => simp [insertCat, catChurnSum, CategoryTotal.bump, CategoryTotal.zero]
  | cons kv t ih =>
    obtain ⟨k, v⟩ := kv
    by_cases h : k = c <;> simp [insertCat, h, catChurnSum, CategoryTotal.bump] <;>
      simp [catChurnSum] at ih <;> omega

theorem catFileCountSum_insertCat (l : List (String × CategoryTotal)) (c : String)
    (fs : FileStat) :
    catFileCountSum (insertCat l c fs) = catFileCountSum l + 1 := by
  induction l with
  | nil => simp [insertCat, catFileCountSum, CategoryTotal.bump, CategoryTotal.zero]
  | cons kv t ih =>
    obtain ⟨k, v⟩ := kv
    by_cases h : k = c <;> simp [insertCat, h, catFileCountSum, CategoryTotal.bump] <;>
      simp [catFileCountSum] at ih <;> omega

theorem lookupCat_insertCat_self (l : List (String × CategoryTotal)) (c : String)
    (fs : FileStat) :
    lookupCat (insertCat l c fs) c = (lookupCat l c).bump fs := by
  induction l with
  | nil => simp [insertCat, lookupCat]
  | cons kv t ih =>
    obtain ⟨k, v⟩ := kv
    by_cases h : k = c <;> simp [insertCat, h, lookupCat, ih]

theorem lookupCat_insertCat_ne (l : List (String × CategoryTotal)) (c c' : String)
    (fs : FileStat) (h : c' ≠ c) :
    lookupCat (insertCat l c fs) c' = lookupCat l c' := by
  induction l with
  | nil =>
    simp only [insertCat, lookupCat]
    rw [if_neg (fun hc => h hc.symm)]
  | cons kv t ih =>
    obtain ⟨k, v⟩ := kv
    simp only [insertCat]
    by_cases hk : k = c
    · rw [if_pos hk]
      subst hk
      simp only [lookupCat]
      rw [if_neg (fun hc => h hc.symm), if_neg (fun hc => h hc.symm)]
    · rw [if_neg hk]
      simp only [lookupCat]
      by_cases hk' : k = c'
      · rw [if_pos hk', if_pos hk']
      · rw [if_neg hk', if_neg hk', ih]

theorem mem_keysCT_insertCat (l : List (String × CategoryTotal)) (c c' : String)
    (fs : FileStat) :
    c' ∈ keysCT (insertCat l c fs) ↔ c' ∈ keysCT l ∨ c' = c := by
  induction l with
  | nil => simp [insertCat, keysCT]
  | cons kv t ih =>
    obtain ⟨k, v⟩ := kv
    by_cases h : k = c
    · subst h
      by_cases h' : c' = k <;> simp [insertCat, keysCT, h']
    · simp only [insertCat, if_neg h, keysCT, List.map_cons, List.mem_cons]
      simp only [keysCT] at ih
      rw [ih]
      tauto

/-- The running totals of the aggregation loop accumulate the field sums
of the processed records. -/
theorem aggFoldl_totals (fn : String → String × String) (rs : List FileStat) (init : AggState) :
    (rs.foldl (aggStep fn) init).totalAdded = init.totalAdded + (rs.map (·.added)).sum
    ∧ (rs.foldl (aggStep fn) init).totalDeleted = init.totalDeleted + (rs.map (·.deleted)).sum
    ∧ (rs.foldl (aggStep fn) init).totalFiles = init.totalFiles + rs.length := by
  induction rs generalizing init with
  | nil => simp
  | cons r rest ih =>
    obtain ⟨ha, hd, hf⟩ := ih (aggStep fn init r)
    rw [List.foldl_cons]
    refine ⟨?_, ?_, ?_⟩
    · rw [ha]
      simp [aggStep]
      omega
    · rw [hd]
      simp [aggStep]
      omega
    · rw [hf]
      simp [aggStep]
      omega

/-- The category-total churn sum accumulates the churn of the processed
records. -/
theorem aggFoldl_catChurnSum (fn : String → String × String) (rs : List FileStat)
    (init : AggState) :
    catChurnSum (rs.foldl (aggStep fn) init).catTotals =
      catChurnSum init.catTotals + (rs.map (·.churn)).sum := by
  induction rs generalizing init with
  | nil => simp
  | cons r rest ih =>
    rw [List.foldl_cons, ih (aggStep fn init r)]
    simp [aggStep, catChurnSum_insertCat]
    omega

/-- The category-total file-count sum counts the processed records. -/
theorem aggFoldl_catFileCountSum (fn : String → String × String) (rs : List FileStat)
    (init : AggState) :
    catFileCountSum (rs.foldl (aggStep fn) init).catTotals =
      catFileCountSum init.catTotals + rs.length := by
  induction rs generalizing init with
  | nil => simp
  | cons r rest ih =>
    rw [List.foldl_cons, ih (aggStep fn init r)]
    simp [aggStep, catFileCountSum_insertCat]
    omega

/-- Each category's accumulated churn is the churn sum of exactly the
records classified into it. -/
theorem aggFoldl_lookup_churn (fn : String → String × String) (rs : List FileStat)
    (init : AggState) (c : String) :
    (lookupCat (rs.foldl (aggStep fn) init).catTotals c).churn =
      (lookupCat init.catTotals c).churn +
        ((rs.filter (fun r => (fn r.path).1 == c)).map (·.churn)).sum := by
  induction rs generalizing init with
  | nil => simp
  | cons r rest ih =>
    rw [List.foldl_cons, ih (aggStep fn init r), List.filter_cons]
    by_cases h : (fn r.path).1 = c
    · rw [if_pos (by simp [h])]
      simp [aggStep, h, lookupCat_insertCat_self, CategoryTotal.bump]
      omega
    · rw [if_neg (by simp [h])]
      simp [aggStep, lookupCat_insertCat_ne _ _ _ _ (fun hc => h hc.symm)]

/-- Each category's accumulated file count is the number of records
classified into it. -/
theorem aggFoldl_lookup_fileCount (fn : String → String × String) (rs : List FileStat)
    (init : AggState) (c : String) :
    (lookupCat (rs.foldl (aggStep fn) init).catTotals c).fileCount =
      (lookupCat init.catTotals c).fileCount +
        (rs.filter (fun r => (fn r.path).1 == c)).length := by
  induction rs generalizing init with
  | nil => simp
  | cons r rest ih =>
    rw [List.foldl_cons, ih (aggStep fn init r), List.filter_cons]
    by_cases h : (fn r.path).1 = c
    · rw [if_pos (by simp [h])]
      simp [aggStep, h, lookupCat_insertCat_self, CategoryTotal.bump]
      omega
    · rw [if_neg (by simp [h])]
      simp [aggStep, lookupCat_insertCat_ne _ _ _ _ (fun hc => h hc.symm)]

/-- The keys of the accumulated category map are exactly the categories
of the processed records (plus whatever the initial state held). -/
theorem aggFoldl_mem_keys (fn : String → String × String) (rs : List FileStat)
    (init : AggState) (c : String) :
    c ∈ keysCT (rs.foldl (aggStep fn) init).catTotals ↔
      c ∈ keysCT init.catTotals ∨ ∃ r ∈ rs, (fn r.path).1 = c := by
  induction rs generalizing init with
  | nil => simp
  | cons r rest ih =>
    rw [List.foldl_cons, ih (aggStep fn init r)]
    simp only [aggStep, mem_keysCT_insertCat, List.mem_cons]
    constructor
    · rintro ((h | h) | ⟨r', hr', h⟩)
      · exact Or.inl h
      · exact Or.inr ⟨r, Or.inl rfl, h.symm⟩
      · exact Or.inr ⟨r', Or.inr hr', h⟩
    · rintro (h | ⟨r', hr' | hr', h⟩)
      · exact Or.inl (Or.inl h)
      · exact Or.inl (Or.inr (hr' ▸ h.symm))
      · exact Or.inr ⟨r', hr', h⟩

/-- On records with `churn = added + deleted`, the churn sum splits into
the added and deleted sums. -/
theorem churn_sum_split (rs : List FileStat) (h : ∀ r ∈ rs, r.churn = r.added + r.deleted) :
    (rs.map (·.churn)).sum = (rs.map (·.added)).sum + (rs.map (·.deleted)).sum := by
  induction rs with
  | nil => simp
  | cons r rest ih =>
    have hr := h r (List.mem_cons_self r rest)
    have hrest := ih (fun x hx => h x (List.mem_cons_of_mem r hx))
    simp [hr, hrest]
    omega

/-- C9: in the Report built from a filtered, classified record set, each
record lands in exactly the bucket of its own category (per-category
churn and file counts equal the sums over exactly the records classified
there), every record contributes exactly once to the grand total, and
the category churn values sum to the grand total churn. -/
theorem report_totals_invariant (fn : String → String × String) (rs : List FileStat)
    (meta : Meta) (h : ∀ r ∈ rs, r.churn = r.added + r.deleted) :
    (∀ c, (lookupCat (buildSummary fn rs meta).categoryTotals c).churn =
        ((rs.filter (fun r => (fn r.path).1 == c)).map (·.churn)).sum)
    ∧ (∀ c, (lookupCat (buildSummary fn rs meta).categoryTotals c).fileCount =
        (rs.filter (fun r => (fn r.path).1 == c)).length)
    ∧ catChurnSum (buildSummary fn rs meta).categoryTotals =
        (buildSummary fn rs meta).totals.churn
    ∧ catFileCountSum (buildSummary fn rs meta).categoryTotals =
        (buildSummary fn rs meta).totals.fileCount
    ∧ (buildSummary fn rs meta).totals.fileCount = rs.length := by
  have hcs : (buildSummary fn rs meta).categoryTotals =
      (rs.foldl (aggStep fn) ⟨[], [], 0, 0, 0⟩).catTotals := rfl
  have hT := aggFoldl_totals fn rs ⟨[], [], 0, 0, 0⟩
  have hchurn : (buildSummary fn rs meta).totals.churn =
      (rs.map (·.added)).sum + (rs.map (·.deleted)).sum := by
    have : (buildSummary fn rs meta).totals.churn =
        (rs.foldl (aggStep fn) ⟨[], [], 0, 0, 0⟩).totalAdded +
          (rs.foldl (aggStep fn) ⟨[], [], 0, 0, 0⟩).totalDeleted := rfl
    rw [this, hT.1, hT.2.1]
    simp
  have hfc : (buildSummary fn rs meta).totals.fileCount =
      (rs.foldl (aggStep fn) ⟨[], [], 0, 0, 0⟩).totalFiles := rfl
  refine ⟨fun c => ?_, fun c => ?_, ?_, ?_, ?_⟩
  · rw [hcs, aggFoldl_lookup_churn]
    simp [lookupCat, CategoryTotal.zero]
  · rw [hcs, aggFoldl_lookup_fileCount]
    simp [lookupCat, CategoryTotal.zero]
  · rw [hcs, aggFoldl_catChurnSum, hchurn, churn_sum_split rs h]
    simp [catChurnSum]
  · rw [hcs, aggFoldl_catFileCountSum, hfc, hT.2.2]
    simp [catFileCountSum]
  · rw [hfc, hT.2.2]
    simp

/-- Witness for C9 on two concrete records (a source file and a docs
file). -/
theorem report_totals_invariant_witness :
    catChurnSum (buildSummary (fun p => classifyPath (fun _ _ => false) [] p)
        [⟨"a.go", 1, 2, 3⟩, ⟨"b.md", 1, 0, 1⟩]
        ⟨"main", "HEAD", "exclude", []⟩).categoryTotals =
      (buildSummary (fun p => classifyPath (fun _ _ => false) [] p)
        [⟨"a.go", 1, 2, 3⟩, ⟨"b.md", 1, 0, 1⟩]
        ⟨"main", "HEAD", "exclude", []⟩).totals.churn :=
  (report_totals_invariant (fun p => classifyPath (fun _ _ => false) [] p)
    [⟨"a.go", 1, 2, 3⟩, ⟨"b.md", 1, 0, 1⟩] ⟨"main", "HEAD", "exclude", []⟩
    (by decide)).2.2.1

/-- C1 (amended): the JSON report's `by_category` object holds a key for
exactly those categories with at least one surviving filtered record —
a category whose records were all removed by filtering is absent, while
a category whose surviving records have zero total churn (e.g. only
binary files) IS present, with zero values; only the text renderer skips
zero-churn categories. -/
theorem byCategory_keys_iff (fn : String → String × String) (rs : List FileStat)
    (meta : Meta) (c : String) :
    c ∈ (jsonByCategory (buildSummary fn rs meta)).map Prod.fst ↔
      ∃ r ∈ rs, (fn r.path).1 = c := by
  have hk : (jsonByCategory (buildSummary fn rs meta)).map Prod.fst =
      keysCT (buildSummary fn rs meta).categoryTotals := by
    simp [jsonByCategory, keysCT, List.map_map, Function.comp]
  rw [hk, show (buildSummary fn rs meta).categoryTotals =
      (rs.foldl (aggStep fn) ⟨[], [], 0, 0, 0⟩).catTotals from rfl, aggFoldl_mem_keys]
  simp [keysCT]

/-- C1 counterexample to the claim as stated: a filtered set holding only
the zero-churn binary record `image.png` yields a `by_category` object
that DOES contain its category `other`, with all-zero totals. -/
theorem zero_churn_category_present :
    jsonByCategory (buildSummary (fun p => classifyPath (fun _ _ => false) [] p)
        [⟨"image.png", 0, 0, 0⟩] ⟨"main", "WORKTREE", "exclude", []⟩) =
      [("other", ⟨0, 0, 0, ["image.png"], 1⟩)] := by decide

end Differ

